import Mathlib

/-!
Verification development for the desugar pass of `ast/desugar/Desugar.cc`:
a shallow embedding of the lowering from parse nodes to the typed AST,
together with theorems about the rewrites it performs.

Modelling conventions:
- `NameRef` is the interner's name handle.  `enterNameUTF8` is `.utf8`;
  `freshNameUnique(kind, base, counter)` is `.unique kind base counter`.
  Distinct argument triples yield distinct handles, which holds here by
  constructor injectivity (the contract the external interner promises).
- The recursion counter is a `u2` (`uint16_t`) passed by reference; it is
  modelled as a natural number taken modulo 2^16 on every pre-increment.
- Source locations are carried by every C++ node but never inspected by
  the rewrites under verification, so they are elided from the embedding.
- C++ recursion is modelled with an explicit fuel parameter; every call
  consumes one unit, and exhaustion returns `none`.  `Exception::raise`
  and failed `ENFORCE` assertions are also modelled as `none`.
- The state additionally carries two ghost logs of minted fresh names:
  `scopeLog` for the current counter scope and `allLog` for the whole
  top-level invocation.  They instrument `freshNameUnique` only and do
  not influence any produced tree.
-/

namespace Desugar

/-- Category tag of `freshNameUnique`; the desugarer only uses `Desugar`. -/
inductive UKind where
  | desugar
deriving DecidableEq

/-- Interned name handles: raw UTF-8 entries and unique (fresh) names. -/
inductive NameRef where
  | utf8 (s : String)
  | unique (kind : UKind) (base : NameRef) (num : Nat)
deriving DecidableEq

/-- Counter component of a minted unique name. -/
def mintNum : NameRef → Nat
  | .unique _ _ n => n
  | .utf8 _ => 0

namespace Names

def empty : NameRef := .utf8 ""
def to_s : NameRef := .utf8 "to_s"
def to_a : NameRef := .utf8 "to_a"
def to_hash : NameRef := .utf8 "to_hash"
def to_proc : NameRef := .utf8 "to_proc"
def concat : NameRef := .utf8 "concat"
def intern : NameRef := .utf8 "intern"
def callName : NameRef := .utf8 "call"
def slice : NameRef := .utf8 "slice"
def new_ : NameRef := .utf8 "new"
def squareBrackets : NameRef := .utf8 "[]"
def tripleEq : NameRef := .utf8 "==="
def splatName : NameRef := .utf8 "<splat>"
def expandSplat : NameRef := .utf8 "<expand-splat>"
def callWithSplat : NameRef := .utf8 "<call-with-splat>"
def assignTemp : NameRef := .utf8 "<assignTemp>"
def destructureArg : NameRef := .utf8 "<destructure>"
def rescueTemp : NameRef := .utf8 "<rescueTemp>"
def forTemp : NameRef := .utf8 "forTemp"
def blockPassTemp : NameRef := .utf8 "<block-pass>"
def singletonName : NameRef := .utf8 "<singleton class>"

end Names

/-- Well-known symbol table entries referenced by the desugarer. -/
inductive Sym0 where
  | Magic
  | Kernel
  | RangeSym
  | RegexpSym
  | SymbolSym
  | rootSym
  | todoSym
deriving DecidableEq

/-- Kinds of an `UnresolvedIdent`. -/
inductive IdKind where
  | localK
  | instanceK
  | classK
  | globalK
deriving DecidableEq

/-- The two `ClassDef` kinds. -/
inductive CKind where
  | classKind
  | moduleKind
deriving DecidableEq

/-- Literal payloads of the typed-AST `Literal` node. -/
inductive LitKind where
  | str (s : NameRef)
  | sym (s : NameRef)
  | int (i : Int)
  | trueL
  | falseL
  | nilL
deriving DecidableEq

/-- Typed-AST nodes (the desugarer's output language).  Block bodies
attached to a `Send` use the `BlockExpr` constructor; `Send` receivers are
structurally always present, matching the non-null receiver invariant. -/
inductive Expression where
  | EmptyTree
  | SelfExpr
  | Lit (v : LitKind)
  | UnresolvedIdent (kind : IdKind) (name : NameRef)
  | UnresolvedConstant (scope : Expression) (cnst : NameRef)
  | ConstantLit (sym : Sym0)
  | AssignE (lhs rhs : Expression)
  | InsSeq (stats : List Expression) (expr : Expression)
  | IfE (cond thenp elsep : Expression)
  | SendE (recv : Expression) (fn : NameRef) (args : List Expression)
      (flags : Nat) (blk : Option Expression)
  | BlockExpr (args : List Expression) (body : Expression)
  | ArrayE (elems : List Expression)
  | HashE (keys vals : List Expression)
  | ReturnE (expr : Expression)
  | BreakE (expr : Expression)
  | NextE (expr : Expression)
  | YieldE (args : List Expression)
  | RetryE
  | ClassDefE (sym : Sym0) (name : Expression) (ancestors : List Expression)
      (rhs : List Expression) (kind : CKind)
  | MethodDefE (name : NameRef) (args : List Expression) (body : Expression)
      (selfMethod : Bool)
  | RescueE (body : Expression) (cases : List Expression)
      (els ens : Expression)
  | RescueCaseE (exceptions : List Expression) (var : Expression)
      (body : Expression)
  | RestArgE (e : Expression)
  | KeywordArgE (e : Expression)
  | OptionalArgE (e dflt : Expression)
  | BlockArgE (e : Expression)
  | ShadowArgE (e : Expression)
  | ZSuperArgsE

/-- Parse-tree nodes (the upstream parser's output), restricted to the
sub-language the verified clauses consume. -/
inductive PNode where
  | SendP (receiver : Option PNode) (method : NameRef) (args : List PNode)
  | ConstP (scope : Option PNode) (name : NameRef)
  | StrP (val : NameRef)
  | SymP (val : NameRef)
  | LVarP (name : NameRef)
  | DStringP (nodes : List PNode)
  | DSymbolP (nodes : List PNode)
  | BeginP (stmts : List PNode)
  | KwbeginP (stmts : List PNode)
  | SelfP
  | NilP
  | TrueP
  | FalseP
  | IntegerP (val : String)
  | ArrayP (elts : List PNode)
  | SplatP (var : PNode)
  | SplatLhsP (var : Option PNode)
  | BlockPassP (blk : PNode)
  | MlhsP (exprs : List PNode)
  | MasgnP (lhs rhs : PNode)
  | LVarLhsP (name : NameRef)
  | AssignP (lhs rhs : PNode)
  | IfP (cond : PNode) (thenB elseB : Option PNode)
  | CaseP (cond : Option PNode) (whens : List PNode) (els : Option PNode)
  | WhenP (patterns : List PNode) (body : Option PNode)
  | RescueP (body : Option PNode) (cases : List PNode) (els : Option PNode)
  | ResbodyP (exc var body : Option PNode)
  | EnsureP (body ens : Option PNode)
  | ReturnP (exprs : List PNode)
  | BreakP (exprs : List PNode)
  | NextP (exprs : List PNode)
  | YieldP (exprs : List PNode)
  | ModuleP (name : PNode) (body : Option PNode)
  | ClassP (name : PNode) (superclass body : Option PNode)
  | SClassP (expr : PNode) (body : Option PNode)
  | DefMethodP (name : NameRef) (args body : Option PNode)
  | DefSP (singleton : PNode) (name : NameRef) (args body : Option PNode)
  | ArgsP (args : List PNode)
  | ArgP (name : NameRef)
  | RestargP (name : NameRef)
  | KwargP (name : NameRef)
  | KwoptargP (name : NameRef) (dflt : Option PNode)
  | OptargP (name : NameRef) (dflt : Option PNode)
  | KwrestargP (name : NameRef)
  | BlockargP (name : NameRef)
  | ShadowargP (name : NameRef)

/-- Modulus of the `u2` recursion counter. -/
def u2Mod : Nat := 65536

/-- Raw desugaring state: the `u2` counter threaded by reference, plus
ghost instrumentation (`scopeStart` is the value the current counter scope
started from, `scopeLog` the fresh names minted in the current scope,
`allLog` all fresh names minted in the invocation). -/
structure St where
  counter : Nat
  scopeStart : Nat
  scopeLog : List NameRef
  allLog : List NameRef
deriving DecidableEq

/-- Counter values of the names a scope mints: starting from counter
value `c`, the `k` successive pre-incremented values. -/
def incList (c k : Nat) : List Nat :=
  (List.range k).map (fun j => (c + j + 1) % u2Mod)

/-- Invariant tying the counter to the ghost scope log: the counter is the
scope's start advanced once per minted name, and the minted counter values
are exactly the successive increments. -/
def Inv (s : St) : Prop :=
  s.scopeStart < u2Mod ∧
  s.counter = (s.scopeStart + s.scopeLog.length) % u2Mod ∧
  s.scopeLog.map mintNum = incList s.scopeStart s.scopeLog.length

/-- States that satisfy the counter invariant; the monad below threads
only such states, so the invariant needs no program-wide induction. -/
def StI : Type := { s : St // Inv s }

/-- The desugaring monad: counter state threading with failure. -/
def M (α : Type) : Type := StI → Option (α × StI)

/-- Monad unit of `M`. -/
def mpure {α : Type} (a : α) : M α := fun s => some (a, s)

/-- Monad bind of `M`. -/
def mbind {α β : Type} (x : M α) (f : α → M β) : M β := fun s =>
  match x s with
  | none => none
  | some (a, s₁) => f a s₁

instance : Monad M where
  pure := mpure
  bind := mbind

/-- Failure: raised exceptions and failed assertions. -/
def mfail {α : Type} : M α := fun _ => none

theorem incList_succ (c k : Nat) :
    incList c (k + 1) = incList c k ++ [(c + k + 1) % u2Mod] := by
  simp [incList, List.range_succ]

theorem counter_step (s : St) (h : Inv s) :
    (s.counter + 1) % u2Mod =
      (s.scopeStart + (s.scopeLog.length + 1)) % u2Mod := by
  obtain ⟨-, h2, -⟩ := h
  rw [h2]
  simp only [u2Mod]
  omega

theorem inv_mint (s : St) (base : NameRef) (h : Inv s) :
    Inv ⟨(s.counter + 1) % u2Mod, s.scopeStart,
         s.scopeLog ++ [.unique .desugar base ((s.counter + 1) % u2Mod)],
         s.allLog ++ [.unique .desugar base ((s.counter + 1) % u2Mod)]⟩ := by
  obtain ⟨h1, h2, h3⟩ := h
  refine ⟨h1, ?_, ?_⟩
  · simpa using counter_step s ⟨h1, h2, h3⟩
  · simp only [List.map_append, List.length_append, List.length_singleton,
      List.map_cons, List.map_nil, h3, mintNum]
    rw [incList_succ, counter_step s ⟨h1, h2, h3⟩]
    simp [Nat.add_assoc]

/-- The interner call `freshNameUnique(UniqueNameKind::Desugar, base,
++uniqueCounter)`: the by-reference `u2` counter is pre-incremented
(wrapping mod 2^16) and the minted name carries that value.  Both ghost
logs record the minted name. -/
def freshNameUnique (base : NameRef) : M NameRef := fun s =>
  let c := (s.val.counter + 1) % u2Mod
  some (NameRef.unique .desugar base c,
        ⟨⟨c, s.val.scopeStart,
           s.val.scopeLog ++ [.unique .desugar base c],
           s.val.allLog ++ [.unique .desugar base c]⟩,
         inv_mint s.val base s.property⟩)

theorem inv_resetStart (log : List NameRef) :
    Inv ⟨1, 1, [], log⟩ := by
  refine ⟨by norm_num [u2Mod], by norm_num [u2Mod], by simp [incList]⟩

theorem inv_restore (s : St) (log : List NameRef) (h : Inv s) :
    Inv ⟨s.counter, s.scopeStart, s.scopeLog, log⟩ := h

/-- A local `u2 uniqueCounter = 1` opening a fresh counter scope (used by
`scopeNodeToBody` and the method-definition clauses); the outer counter is
untouched, while `allLog` keeps accumulating. -/
def resetScope {α : Type} (x : M α) : M α := fun s =>
  match x ⟨⟨1, 1, [], s.val.allLog⟩, inv_resetStart _⟩ with
  | none => none
  | some (a, s₁) =>
      some (a, ⟨⟨s.val.counter, s.val.scopeStart, s.val.scopeLog,
                 s₁.val.allLog⟩,
                inv_restore s.val _ s.property⟩)

/-- Initial state of one top-level invocation (`u2 uniqueCounter = 1`). -/
def st0 : StI := ⟨⟨1, 1, [], []⟩, inv_resetStart []⟩

/-- Value of a nonempty decimal digit run. -/
def digitsToNat (ds : List Char) : Nat :=
  ds.foldl (fun a c => a * 10 + (c.toNat - 48)) 0

/-- C++ `std::stol` applied to the literal text of a `parser::Integer`:
skip leading whitespace, take an optional sign and a nonempty run of
decimal digits (trailing junk ignored); `none` models both
`invalid_argument` (no digits) and `out_of_range` (outside the 64-bit
`long` range), which the clause maps to the value `0`. -/
def stol (str : String) : Option Int :=
  let cs := str.data.dropWhile (fun c => c.isWhitespace)
  let signed : Bool × List Char :=
    match cs with
    | '-' :: r => (true, r)
    | '+' :: r => (false, r)
    | _ => (false, cs)
  let ds := signed.2.takeWhile (fun c => c.isDigit)
  if ds.isEmpty then none
  else
    let v : Int := (digitsToNat ds : Int)
    let v := if signed.1 then -v else v
    if v < -(2 ^ 63) ∨ 2 ^ 63 - 1 < v then none else some v

/-- Modelled from the spec: `Send::PRIVATE_OK` is a flag bit declared in
`ast.h`, which is not under `src/`; only set (nonzero) versus clear
matters to the specified behaviour. -/
def PRIVATE_OK : Nat := 1

namespace MK

/-! Typed-AST constructor helpers.  Modelled from the spec: `ast/Helpers.h`
is not under `src/`; §4.2 specifies the helpers as thin builders whose
contract is only that the returned node has the requested kind and
children, so each helper is the corresponding constructor application. -/

def EmptyTreeE : Expression := .EmptyTree
def SelfE : Expression := .SelfExpr
def StringE (s : NameRef) : Expression := .Lit (.str s)
def SymbolE (s : NameRef) : Expression := .Lit (.sym s)
def IntE (i : Int) : Expression := .Lit (.int i)
def TrueE : Expression := .Lit .trueL
def FalseE : Expression := .Lit .falseL
def NilE : Expression := .Lit .nilL
def LocalE (name : NameRef) : Expression := .UnresolvedIdent .localK name
def ConstantE (s : Sym0) : Expression := .ConstantLit s
def UnresolvedConstantE (scope : Expression) (n : NameRef) : Expression :=
  .UnresolvedConstant scope n
def Send (recv : Expression) (fn : NameRef) (args : List Expression)
    (flags : Nat) (blk : Option Expression) : Expression :=
  .SendE recv fn args flags blk
def Send0 (recv : Expression) (fn : NameRef) : Expression :=
  .SendE recv fn [] 0 none
def Send1 (recv : Expression) (fn : NameRef) (a : Expression) : Expression :=
  .SendE recv fn [a] 0 none
def Assign (lhs rhs : Expression) : Expression := .AssignE lhs rhs
def AssignLocal (n : NameRef) (rhs : Expression) : Expression :=
  .AssignE (LocalE n) rhs
def InsSeqE (stats : List Expression) (e : Expression) : Expression :=
  .InsSeq stats e
def InsSeq1 (stat e : Expression) : Expression := .InsSeq [stat] e
def IfE (c t e : Expression) : Expression := .IfE c t e
def Method (name : NameRef) (args : List Expression) (body : Expression) :
    Expression :=
  .MethodDefE name args body false

/-- Modelled from the spec: `MK::Splat` (in `ast/Helpers.h`, not under
`src/`) produces the Magic splat send that the Resbody clause later
recognizes by its `splat` method name. -/
def SplatE (e : Expression) : Expression :=
  .SendE (.ConstantLit .Magic) Names.splatName [e] 0 none

end MK

/-- The `isa_tree EmptyTree` test. -/
def isEmptyTree : Expression → Bool
  | .EmptyTree => true
  | _ => false

/-- The `isStringLit` helper: a `Literal` that is a string. -/
def isStringLit : Expression → Bool
  | .Lit (.str _) => true
  | _ => false

/-- The `parser::isa_node Splat` test. -/
def isSplatNode : PNode → Bool
  | .SplatP _ => true
  | _ => false

/-- The `absl::c_find_if` and `erase` pair of the splat Send branch:
removes the first `BlockPass` from an argument list and returns its
payload. -/
def extractBlockPass : List PNode → Option PNode × List PNode
  | [] => (none, [])
  | x :: xs =>
    match x with
    | .BlockPassP b => (some b, xs)
    | _ =>
      let r := extractBlockPass xs
      (r.1, x :: r.2)

mutual

/-- The main dispatch `node2TreeImpl`: a null node is `EmptyTree` before
any kind-based case analysis; otherwise one clause per parse-node kind.
The explicit fuel models the C++ recursion (each call consumes one unit);
parse-node kinds with no clause in the source fall to the catch-all
`Exception::raise` and are modelled by `mfail`. -/
def lower : Nat → Option PNode → M Expression
  | 0, _ => mfail
  | _ + 1, none => pure .EmptyTree
  | fuel + 1, some w =>
    match w with
    | .SendP receiver method args => do
      let rec0 ← lower fuel receiver
      let rf : Expression × Nat :=
        if isEmptyTree rec0 then (.SelfExpr, PRIVATE_OK) else (rec0, 0)
      match args.any isSplatNode with
      | true => do
        let eb := extractBlockPass args
        let argsE ← lower fuel (some (.ArrayP eb.2))
        let methodLit : Expression := .Lit (.sym method)
        let blk ← node2Proc fuel eb.1
        pure (MK.Send (MK.ConstantE .Magic) Names.callWithSplat
          [rf.1, methodLit, argsE] 0 blk)
      | false => do
        let al ← sendArgsLoop fuel args none
        let blk ← node2Proc fuel al.2
        pure (MK.Send rf.1 method al.1 rf.2 blk)
    | .ConstP scope name => do
      let s ← lower fuel scope
      pure (MK.UnresolvedConstantE s name)
    | .StrP v => pure (MK.StringE v)
    | .SymP v => pure (MK.SymbolE v)
    | .LVarP n => pure (MK.LocalE n)
    | .DStringP nodes => desugarDString fuel nodes
    | .BeginP stmts =>
      (match stmts with
       | [] => pure .EmptyTree
       | _ :: _ => do
         let r ← beginLoop fuel stmts
         pure (MK.InsSeqE r.1 r.2))
    | .KwbeginP stmts =>
      (match stmts with
       | [] => pure .EmptyTree
       | _ :: _ => do
         let r ← beginLoop fuel stmts
         pure (MK.InsSeqE r.1 r.2))
    | .SelfP => pure .SelfExpr
    | .NilP => pure MK.NilE
    | .TrueP => pure MK.TrueE
    | .FalseP => pure MK.FalseE
    | .IntegerP v =>
      -- both catch branches substitute the value 0 (plus a diagnostic)
      pure (MK.IntE ((stol v).getD 0))
    | .DSymbolP nodes =>
      (match nodes with
       | [] => pure (MK.SymbolE Names.empty)
       | p :: rest => do
         let first ← lower fuel (some p)
         let res := if isStringLit first then first
                    else MK.Send0 first Names.to_s
         let res ← dsymbolLoop fuel res rest
         pure (MK.Send0 res Names.intern))
    | .ArrayP elts => do
      let r ← arrayLoop fuel elts [] none
      (match r.1.isEmpty, r.2 with
       | true, some lm => pure lm
       | true, none => pure (.ArrayE [])
       | false, none => pure (.ArrayE r.1)
       | false, some lm => pure (MK.Send1 lm Names.concat (.ArrayE r.1)))
    | .SplatP var => do
      let v ← lower fuel (some var)
      pure (MK.SplatE v)
    | .SplatLhsP _ => mfail   -- no dispatch clause: catch-all raise
    | .BlockPassP _ => mfail  -- raise: Send should have handled it
    | .MlhsP _ => mfail       -- no dispatch clause: catch-all raise
    | .MasgnP lhs rhs =>
      (match lhs with
       | .MlhsP exprs => do
         let r ← lower fuel (some rhs)
         desugarMlhs fuel exprs r
       | _ => mfail)          -- ENFORCE: failed to get lhs of Masgn
    | .LVarLhsP n => pure (MK.LocalE n)
    | .AssignP lhs rhs => do
      let l ← lower fuel (some lhs)
      let r ← lower fuel (some rhs)
      pure (MK.Assign l r)
    | .IfP c t e => do
      let c' ← lower fuel (some c)
      let t' ← lower fuel t
      let e' ← lower fuel e
      pure (MK.IfE c' t' e')
    | .CaseP cond whens els =>
      (match cond with
       | some c => do
         let temp ← freshNameUnique Names.assignTemp
         let ce ← lower fuel (some c)
         let res ← lower fuel els
         let res ← caseWhens fuel (some temp) whens res
         pure (MK.InsSeq1 (MK.AssignLocal temp ce) res)
       | none => do
         let res ← lower fuel els
         caseWhens fuel none whens res)
    | .WhenP _ _ => mfail     -- consumed by the Case clause: catch-all raise
    | .RescueP body cases els => do
      -- the source lowers the rescue cases first; the `make_unique`
      -- argument order for body and else is unspecified in C++ and is
      -- fixed here as body before else
      let cs ← rescueCases fuel cases
      let b ← lower fuel body
      let e ← lower fuel els
      pure (.RescueE b cs e .EmptyTree)
    | .ResbodyP exc var body => do
      let excE ← lower fuel exc
      let exceptions ←
        (match excE with
         | .EmptyTree => pure ([] : List Expression)
         | .ArrayE elems => pure elems
         | .SendE r fn a fl b =>
           if fn = Names.splatName ∨ fn = Names.to_a ∨ fn = Names.concat then
             pure [Expression.SendE r fn a fl b]
           else mfail                     -- ENFORCE: unknown exceptionSend
         | _ => mfail)                    -- raise: bad inner node type
      let varExpr ← lower fuel var
      let b ← lower fuel body
      (match varExpr with
       | .UnresolvedIdent .localK nm =>
         -- an identifier LHS is captured directly, no wrapper
         pure (.RescueCaseE exceptions (MK.LocalE nm) b)
       | .EmptyTree => do
         let v ← freshNameUnique Names.rescueTemp
         pure (.RescueCaseE exceptions (MK.LocalE v) b)
       | ve => do
         let v ← freshNameUnique Names.rescueTemp
         pure (.RescueCaseE exceptions (MK.LocalE v)
           (MK.InsSeq1 (MK.Assign ve (MK.LocalE v)) b)))
    | .EnsureP body ens => do
      let b ← lower fuel body
      let e ← lower fuel ens
      (match b with
       | .RescueE rb rc rel _ => pure (.RescueE rb rc rel e)
       | _ => pure (.RescueE b [] .EmptyTree e))
    | .ReturnP exprs =>
      (match exprs with
       | [] => pure (.ReturnE .EmptyTree)
       | [e] => do
         let e' ← lower fuel (some e)
         pure (.ReturnE e')
       | es => do
         let elems ← lowerList fuel es
         pure (.ReturnE (.ArrayE elems)))
    | .BreakP exprs =>
      (match exprs with
       | [] => pure (.BreakE .EmptyTree)
       | [e] => do
         let e' ← lower fuel (some e)
         pure (.BreakE e')
       | es => do
         let elems ← lowerList fuel es
         pure (.BreakE (.ArrayE elems)))
    | .NextP exprs =>
      (match exprs with
       | [] => pure (.NextE .EmptyTree)
       | [e] => do
         let e' ← lower fuel (some e)
         pure (.NextE e')
       | es => do
         let elems ← lowerList fuel es
         pure (.NextE (.ArrayE elems)))
    | .YieldP exprs => do
      let elems ← lowerList fuel exprs
      pure (.YieldE elems)
    | .ModuleP name body => do
      let b ← scopeNodeToBody fuel body
      let n ← lower fuel (some name)
      pure (.ClassDefE .todoSym n [] b .moduleKind)
    | .ClassP name superclass body => do
      let b ← scopeNodeToBody fuel body
      let ancestors ←
        (match superclass with
         | none => pure [MK.ConstantE .todoSym]
         | some sc => do
           let s ← lower fuel (some sc)
           pure [s])
      let n ← lower fuel (some name)
      pure (.ClassDefE .todoSym n ancestors b .classKind)
    | .SClassP expr body =>
      (match expr with
       | .SelfP => do
         let b ← scopeNodeToBody fuel body
         pure (.ClassDefE .todoSym
           (.UnresolvedIdent .classK Names.singletonName) [] b .classKind)
       | _ => pure .EmptyTree)  -- InvalidSingletonDef diagnostic
    | .DefMethodP name args body =>
      -- the clause declares `u2 uniqueCounter1 = 1`: a fresh counter scope
      resetScope (buildMethod fuel name args body)
    | .DefSP singleton name args body =>
      (match singleton with
       | .SelfP => do
         let m ← resetScope (buildMethod fuel name args body)
         (match m with
          | .MethodDefE nm as bd _ => pure (.MethodDefE nm as bd true)
          | _ => mfail)
       | _ => pure .EmptyTree)  -- InvalidSingletonDef diagnostic
    | .ArgP n => pure (MK.LocalE n)
    | .RestargP n => pure (.RestArgE (MK.LocalE n))
    | .KwargP n => pure (.KeywordArgE (MK.LocalE n))
    | .KwoptargP n dflt => do
      let d ← lower fuel dflt
      pure (.OptionalArgE (.KeywordArgE (MK.LocalE n)) d)
    | .OptargP n dflt => do
      let d ← lower fuel dflt
      pure (.OptionalArgE (MK.LocalE n) d)
    | .KwrestargP n => pure (.RestArgE (.KeywordArgE (MK.LocalE n)))
    | .BlockargP n => pure (.BlockArgE (MK.LocalE n))
    | .ShadowargP n => pure (.ShadowArgE (MK.LocalE n))
    | .ArgsP _ => mfail       -- consumed by desugarArgsAndBody: raise

/-- Statement lowering of a nonempty `Begin` or `Kwbegin`: all statements
but the last, then the trailing expression. -/
def beginLoop : Nat → List PNode → M (List Expression × Expression)
  | 0, _ => mfail
  | _ + 1, [] => mfail
  | fuel + 1, [x] => do
    let e ← lower fuel (some x)
    pure ([], e)
  | fuel + 1, x :: xs => do
    let s ← lower fuel (some x)
    let r ← beginLoop fuel xs
    pure (s :: r.1, r.2)

/-- Sequential lowering of a node list. -/
def lowerList : Nat → List PNode → M (List Expression)
  | 0, _ => mfail
  | _ + 1, [] => pure []
  | fuel + 1, x :: xs => do
    let e ← lower fuel (some x)
    let r ← lowerList fuel xs
    pure (e :: r)

/-- The `desugarDString` helper.  The first piece stays bare iff it lowers
to a string literal. -/
def desugarDString : Nat → List PNode → M Expression
  | 0, _ => mfail
  | _ + 1, [] => pure (MK.StringE Names.empty)
  | fuel + 1, p :: rest => do
    let first ← lower fuel (some p)
    let res := if isStringLit first then first else MK.Send0 first Names.to_s
    dstringLoop fuel res rest

/-- Loop of `desugarDString`.  The source tests `isStringLit(ctx, first)`
inside the loop, but `first` was moved from before the loop, so the test
reads a null `unique_ptr` and is always false: every later piece is
wrapped in a `to_s` send whether or not it is a string literal. -/
def dstringLoop : Nat → Expression → List PNode → M Expression
  | 0, _, _ => mfail
  | _ + 1, res, [] => pure res
  | fuel + 1, res, p :: ps => do
    let narg ← lower fuel (some p)
    let narg := MK.Send0 narg Names.to_s
    dstringLoop fuel (MK.Send1 res Names.concat narg) ps

/-- Loop of the `DSymbol` clause; unlike `desugarDString` it tests the
current piece `narg`, so string-literal pieces stay bare. -/
def dsymbolLoop : Nat → Expression → List PNode → M Expression
  | 0, _, _ => mfail
  | _ + 1, res, [] => pure res
  | fuel + 1, res, p :: ps => do
    let narg ← lower fuel (some p)
    let narg := if isStringLit narg then narg else MK.Send0 narg Names.to_s
    dsymbolLoop fuel (MK.Send1 res Names.concat narg) ps

/-- The `node2Proc` helper: a symbol literal block-pass becomes a
one-parameter block calling that method; anything else becomes a
rest-parameter block through `Magic.callWithSplat` on `to_proc`. -/
def node2Proc : Nat → Option PNode → M (Option Expression)
  | 0, _ => mfail
  | _ + 1, none => pure none
  | fuel + 1, some node => do
    let expr ← lower fuel (some node)
    let temp ← freshNameUnique Names.blockPassTemp
    (match expr with
     | .Lit (.sym nm) =>
       pure (some (.BlockExpr [MK.LocalE temp] (MK.Send0 (MK.LocalE temp) nm)))
     | e =>
       pure (some (.BlockExpr [.RestArgE (MK.LocalE temp)]
         (MK.Send (MK.ConstantE .Magic) Names.callWithSplat
           [MK.Send0 e Names.to_proc, .Lit (.sym Names.callName),
            MK.LocalE temp] 0 none))))

/-- The argument loop of the non-splat Send branch: block-pass arguments
are extracted (a second one fails the `ENFORCE`), the rest are lowered in
order. -/
def sendArgsLoop : Nat → List PNode → Option PNode →
    M (List Expression × Option PNode)
  | 0, _, _ => mfail
  | _ + 1, [], blk => pure ([], blk)
  | fuel + 1, x :: xs, blk =>
    match x with
    | .BlockPassP b =>
      (match blk with
       | some _ => mfail   -- ENFORCE(block == nullptr)
       | none => sendArgsLoop fuel xs (some b))
    | _ => do
      let e ← lower fuel (some x)
      let r ← sendArgsLoop fuel xs blk
      pure (e :: r.1, r.2)

/-- The element loop of the Array clause, threading the collected run of
plain elements and the running concat chain. -/
def arrayLoop : Nat → List PNode → List Expression → Option Expression →
    M (List Expression × Option Expression)
  | 0, _, _, _ => mfail
  | _ + 1, [], elems, lastMerge => pure (elems, lastMerge)
  | fuel + 1, x :: xs, elems, lastMerge =>
    match x with
    | .SplatP var => do
      let v ← lower fuel (some var)
      let v := MK.Send0 v Names.to_a
      if elems.isEmpty then
        let lm := match lastMerge with
          | some lm => MK.Send1 lm Names.concat v
          | none => v
        arrayLoop fuel xs [] (some lm)
      else
        let current : Expression := .ArrayE elems
        let lm := match lastMerge with
          | some lm => MK.Send1 lm Names.concat current
          | none => current
        arrayLoop fuel xs [] (some (MK.Send1 lm Names.concat v))
    | _ => do
      let e ← lower fuel (some x)
      arrayLoop fuel xs (elems ++ [e]) lastMerge

/-- The `desugarMlhs` helper: mint the assign temporary, walk the targets,
prepend the `Magic.expandSplat` binding, and return the temporary. -/
def desugarMlhs : Nat → List PNode → Expression → M Expression
  | 0, _, _ => mfail
  | fuel + 1, exprs, rhs => do
    let tempName ← freshNameUnique Names.assignTemp
    let r ← mlhsLoop fuel tempName exprs 0 0 0 false exprs.length
    let expanded := MK.Send (MK.ConstantE .Magic) Names.expandSplat
      [rhs, MK.IntE r.2.1, MK.IntE r.2.2] 0 none
    pure (MK.InsSeqE (MK.AssignLocal tempName expanded :: r.1)
      (MK.LocalE tempName))

/-- The target loop of `desugarMlhs`: threads the running index `i`, the
before/after counts and the splat flag; returns the emitted statements and
the final counts. -/
def mlhsLoop : Nat → NameRef → List PNode → Int → Nat → Nat → Bool → Nat →
    M (List Expression × Nat × Nat)
  | 0, _, _, _, _, _, _, _ => mfail
  | _ + 1, _, [], _, before, aft, _, _ => pure ([], before, aft)
  | fuel + 1, temp, c :: rest, i, before, aft, didSplat, total =>
    match c with
    | .SplatLhsP var =>
      if didSplat then mfail   -- ENFORCE: did splat already
      else do
        let lh ← lower fuel var
        let left := i
        let right : Int := (total : Int) - left - 1
        if isEmptyTree lh then do
          let r ← mlhsLoop fuel temp rest (-right) before aft true total
          pure r
        else do
          let rx : Int × Expression :=
            if right = 0 then (1, MK.FalseE) else (right, MK.TrueE)
          let index := MK.Send (MK.ConstantE .RangeSym) Names.new_
            [MK.IntE left, MK.IntE (-rx.1), rx.2] 0 none
          let stat := MK.Assign lh
            (MK.Send1 (MK.LocalE temp) Names.slice index)
          let r ← mlhsLoop fuel temp rest (-rx.1) before aft true total
          pure (stat :: r.1, r.2)
    | .MlhsP inner => do
      let val := MK.Send1 (MK.LocalE temp) Names.squareBrackets (MK.IntE i)
      let stat ← desugarMlhs fuel inner val
      let r ← mlhsLoop fuel temp rest (i + 1)
        (if didSplat then before else before + 1)
        (if didSplat then aft + 1 else aft) didSplat total
      pure (stat :: r.1, r.2)
    | _ => do
      let val := MK.Send1 (MK.LocalE temp) Names.squareBrackets (MK.IntE i)
      let lh ← lower fuel (some c)
      let r ← mlhsLoop fuel temp rest (i + 1)
        (if didSplat then before else before + 1)
        (if didSplat then aft + 1 else aft) didSplat total
      pure (MK.Assign lh val :: r.1, r.2)

/-- The `desugarArgsAndBody` helper: formals (with destructuring formals
replaced by fresh temporaries), then the body, wrapped in the emitted
destructuring assignments when any exist. -/
def desugarArgsAndBody : Nat → Option PNode → Option PNode →
    M (List Expression × Expression)
  | 0, _, _ => mfail
  | fuel + 1, argnode, bodynode => do
    let ad ←
      (match argnode with
       | some (.ArgsP as) => argsLoop fuel as
       | none => pure (([], []) : List Expression × List Expression)
       | some _ => mfail)    -- Exception::raise("not implemented: ...")
    let body ← lower fuel bodynode
    let body := if ad.2.isEmpty then body else MK.InsSeqE ad.2 body
    pure (ad.1, body)

/-- The formal-parameter loop of `desugarArgsAndBody`: an `Mlhs` formal is
replaced by a minted `destructureArg` temporary whose synthetic `Masgn`
is lowered into the destructure list. -/
def argsLoop : Nat → List PNode → M (List Expression × List Expression)
  | 0, _ => mfail
  | _ + 1, [] => pure ([], [])
  | fuel + 1, x :: xs =>
    match x with
    | .MlhsP _ => do
      let temporary ← freshNameUnique Names.destructureArg
      let d ← lower fuel (some (.MasgnP x (.LVarP temporary)))
      let r ← argsLoop fuel xs
      pure (MK.LocalE temporary :: r.1, d :: r.2)
    | _ => do
      let e ← lower fuel (some x)
      let r ← argsLoop fuel xs
      pure (e :: r.1, r.2)

/-- The `scopeNodeToBody` helper: a fresh `u2 uniqueCounter = 1` scope; a
`Begin` body contributes its statements, anything else a single element. -/
def scopeNodeToBody : Nat → Option PNode → M (List Expression)
  | 0, _ => mfail
  | fuel + 1, node =>
    resetScope
      (match node with
       | some (.BeginP stmts) => lowerList fuel stmts
       | _ => do
         let e ← lower fuel node
         pure [e])

/-- The `buildMethod` helper. -/
def buildMethod : Nat → NameRef → Option PNode → Option PNode → M Expression
  | 0, _, _, _ => mfail
  | fuel + 1, name, argnode, body => do
    let ab ← desugarArgsAndBody fuel argnode body
    pure (MK.Method name ab.1 ab.2)

/-- The rescue-case loop of the Rescue clause: each Resbody must lower to
a `RescueCase` (the `ENFORCE` cast). -/
def rescueCases : Nat → List PNode → M (List Expression)
  | 0, _ => mfail
  | _ + 1, [] => pure []
  | fuel + 1, x :: xs => do
    let c ← lower fuel (some x)
    (match c with
     | .RescueCaseE a b d => do
       let rest ← rescueCases fuel xs
       pure (.RescueCaseE a b d :: rest)
     | _ => mfail)

/-- The when loop of the Case clause: iterated in reverse source order
(`rbegin` to `rend`), folding each clause over the accumulated else. -/
def caseWhens : Nat → Option NameRef → List PNode → Expression →
    M Expression
  | 0, _, _, _ => mfail
  | _ + 1, _, [], res => pure res
  | fuel + 1, temp, w :: rest, res => do
    let res ← caseWhens fuel temp rest res
    (match w with
     | .WhenP patterns body => do
       let cond ← whenCond fuel temp patterns none
       (match cond with
        | none => mfail   -- a patternless when leaves the condition null
        | some cond => do
          let b ← lower fuel body
          pure (MK.IfE cond b res))
     | _ => mfail)        -- ENFORCE: case without a when

/-- The pattern fold of a when clause: each pattern becomes a triple-equal
test against the scrutinee temporary (or is used bare without one), and
later patterns wrap the accumulated condition as `If(test, true, acc)`. -/
def whenCond : Nat → Option NameRef → List PNode → Option Expression →
    M (Option Expression)
  | 0, _, _, _ => mfail
  | _ + 1, _, [], cond => pure cond
  | fuel + 1, temp, p :: ps, cond => do
    let ctree ← lower fuel (some p)
    let test : Expression :=
      match temp with
      | some t => MK.Send1 ctree Names.tripleEq (MK.LocalE t)
      | none => ctree
    let cond' : Option Expression :=
      match cond with
      | none => some test
      | some c => some (MK.IfE test MK.TrueE c)
    whenCond fuel temp ps cond'

end

/-- The `liftTopLevel` pass: a `ClassDef` passes through; an `InsSeq`
contributes its statements and trailing expression; anything else becomes
a one-element body of the synthetic root class. -/
def liftTopLevel : Expression → Expression
  | .ClassDefE s n a r k => .ClassDefE s n a r k
  | .InsSeq stats e => .ClassDefE .rootSym .EmptyTree [] (stats ++ [e]) .classKind
  | e => .ClassDefE .rootSym .EmptyTree [] [e] .classKind

/-- The public entry `node2Tree`: initialize the counter to 1, lower, and
lift.  The verifier hand-off is a structural post-condition check that
returns the tree (spec §6) and is elided. -/
def node2Tree (fuel : Nat) (w : PNode) : Option (Expression × St) :=
  match lower fuel (some w) st0 with
  | none => none
  | some (r, s) => some (liftTopLevel r, s.val)

/-- Test for a `Send` whose receiver is `Self` with `PRIVATE_OK` set. -/
def sendSelfPrivateOk : Expression → Bool
  | .SendE .SelfExpr _ _ flags _ => flags &&& PRIVATE_OK != 0
  | _ => false

/-- Test for a `ClassDef` node. -/
def isClassDefE : Expression → Bool
  | .ClassDefE _ _ _ _ _ => true
  | _ => false

/-- Test for an `InsSeq` node. -/
def isInsSeqE : Expression → Bool
  | .InsSeq _ _ => true
  | _ => false

/-- Test for a `ClassDef` with a nonempty ancestor list. -/
def classDefHasAncestor : Expression → Bool
  | .ClassDefE _ _ ancestors _ _ => !ancestors.isEmpty
  | _ => false

/-- The `parser::isa_node SplatLhs` test. -/
def isSplatLhsNode : PNode → Bool
  | .SplatLhsP _ => true
  | _ => false

/-- Decidable pairwise distinctness of a name list. -/
def pairwiseDistinct : List NameRef → Bool
  | [] => true
  | x :: xs => !(xs.contains x) && pairwiseDistinct xs

/-- C2's counterexample program: two sibling modules, each containing a
multiple assignment that mints an `assignTemp` temporary. -/
def c2prog : PNode :=
  .BeginP
    [.ModuleP (.ConstP none (.utf8 "M1"))
      (some (.MasgnP (.MlhsP [.LVarLhsP (.utf8 "a"), .LVarLhsP (.utf8 "b")])
        (.LVarP (.utf8 "r")))),
     .ModuleP (.ConstP none (.utf8 "M2"))
      (some (.MasgnP (.MlhsP [.LVarLhsP (.utf8 "c"), .LVarLhsP (.utf8 "d")])
        (.LVarP (.utf8 "s"))))]

/-- C4's concrete case expression `case x; when 1, 2 then :a; else :b; end`. -/
def c4case : PNode :=
  .CaseP (some (.LVarP (.utf8 "x")))
    [.WhenP [.IntegerP "1", .IntegerP "2"] (some (.SymP (.utf8 "a")))]
    (some (.SymP (.utf8 "b")))

/-- The `assignTemp` temporary minted first in a fresh invocation. -/
def temp2 : NameRef := .unique .desugar Names.assignTemp 2

/-- C5's concrete multiple assignment `x, *y = r` (one target before the
splat, none after). -/
def c5masgn : PNode :=
  .MasgnP (.MlhsP [.LVarLhsP (.utf8 "x"), .SplatLhsP (some (.LVarLhsP (.utf8 "y")))])
    (.LVarP (.utf8 "r"))

/-- Shape of the statement `desugarMlhs` emits for a splat target bound to
local `y`: an assignment of `t.slice(Range.new(left, end, exclusive))`
where the end index is `-right` for `right` targets after the splat but
`-1` when there are none, and the exclusive flag is set exactly when some
target follows the splat. -/
def splatSliceStat (t y : NameRef) (left : Int) (postLen : Nat) : Expression :=
  MK.Assign (MK.LocalE y)
    (MK.Send1 (MK.LocalE t) Names.slice
      (MK.Send (MK.ConstantE .RangeSym) Names.new_
        [MK.IntE left,
         MK.IntE (-(if postLen = 0 then 1 else (postLen : Int))),
         if postLen = 0 then MK.FalseE else MK.TrueE] 0 none))

/-! Evaluation lemmas for the monad `M`, used to unfold one lowering
step at a time. -/

theorem run_pure {α : Type} (a : α) (s : StI) : (pure a : M α) s = some (a, s) := rfl

theorem run_bind {α β : Type} {x : M α} {f : α → M β} {s s₁ : StI} {a : α}
    (h : x s = some (a, s₁)) : (x >>= f) s = f a s₁ := by
  show mbind x f s = f a s₁
  unfold mbind
  rw [h]

theorem run_bind' {α β : Type} {x : M α} {s s₁ : StI} {a : α}
    (h : x s = some (a, s₁)) (f : α → M β) : (x >>= f) s = f a s₁ := by
  show mbind x f s = f a s₁
  unfold mbind
  rw [h]

theorem run_bind_none {α β : Type} {x : M α} {f : α → M β} {s : StI}
    (h : x s = none) : (x >>= f) s = none := by
  show mbind x f s = none
  unfold mbind
  rw [h]

theorem run_mfail {α : Type} (s : StI) : (mfail : M α) s = none := rfl

theorem run_bind_inv {α β : Type} {x : M α} {f : α → M β} {s s₂ : StI} {b : β}
    (h : (x >>= f) s = some (b, s₂)) :
    ∃ a s₁, x s = some (a, s₁) ∧ f a s₁ = some (b, s₂) := by
  have h' : mbind x f s = some (b, s₂) := h
  unfold mbind at h'
  cases hx : x s with
  | none => rw [hx] at h'; cases h'
  | some p =>
    obtain ⟨a, s₁⟩ := p
    rw [hx] at h'
    exact ⟨a, s₁, rfl, h'⟩

theorem run_pure_inv {α : Type} {a b : α} {s s' : StI}
    (h : (pure a : M α) s = some (b, s')) : a = b ∧ s = s' := by
  have h' : mpure a s = some (b, s') := h
  unfold mpure at h'
  injection h' with h''
  exact ⟨congrArg Prod.fst h'', congrArg Prod.snd h''⟩

theorem pairwiseDistinct_of_nodup :
    ∀ {l : List NameRef}, l.Nodup → pairwiseDistinct l = true := by
  intro l h
  induction l with
  | nil => rfl
  | cons x xs ih =>
    rw [List.nodup_cons] at h
    simp only [pairwiseDistinct, Bool.and_eq_true, Bool.not_eq_true']
    exact ⟨by simpa using h.1, ih h.2⟩

theorem incList_nodup (c k : Nat) (hk : k ≤ u2Mod) :
    (incList c k).Nodup := by
  unfold incList
  refine List.Nodup.map_on ?_ (List.nodup_range k)
  intro i hi j hj hij
  simp only [List.mem_range] at hi hj
  simp only [u2Mod] at hij hk
  omega

/-- In the target loop of `desugarMlhs`, once the splat has been seen the
before count is threaded through unchanged. -/
theorem mlhsLoop_before_const :
    ∀ (cs : List PNode) (F : Nat) (temp : NameRef) (i : Int) (b a total : Nat)
      (s s' : StI) (res : List Expression × Nat × Nat),
      mlhsLoop F temp cs i b a true total s = some (res, s') →
      res.2.1 = b := by
  intro cs
  induction cs with
  | nil =>
    intro F temp i b a total s s' res h
    cases F with
    | zero => exact Option.noConfusion h
    | succ f =>
      obtain ⟨h1, -⟩ := run_pure_inv h
      rw [← h1]
  | cons c rest ih =>
    intro F temp i b a total s s' res h
    cases F with
    | zero => exact Option.noConfusion h
    | succ f =>
      cases c
      case SplatLhsP v => exact Option.noConfusion h
      case MlhsP inner =>
        obtain ⟨stat, s1, h1, h'⟩ := run_bind_inv h
        obtain ⟨r, s2, h2, h'⟩ := run_bind_inv h'
        obtain ⟨h3, -⟩ := run_pure_inv h'
        rw [← h3]
        exact ih f temp (i + 1) b (a + 1) total s1 s2 r h2
      all_goals
        obtain ⟨lh, s1, h1, h'⟩ := run_bind_inv h
        obtain ⟨r, s2, h2, h'⟩ := run_bind_inv h'
        obtain ⟨h3, -⟩ := run_pure_inv h'
        rw [← h3]
        exact ih f temp (i + 1) b (a + 1) total s1 s2 r h2

/-- In the target loop of `desugarMlhs`, a splat-free prefix contributes
one statement per target and advances the index and before count by one
each, leaving the loop to continue on the remaining targets. -/
theorem mlhsLoop_pre :
    ∀ (pre : List PNode) (F : Nat) (temp : NameRef) (rest : List PNode)
      (i : Int) (b total : Nat) (s s' : StI) (res : List Expression × Nat × Nat),
      pre.all (fun c => !isSplatLhsNode c) = true →
      mlhsLoop F temp (pre ++ rest) i b 0 false total s = some (res, s') →
      ∃ (stats₁ : List Expression) (s₁ : StI) (res₂ : List Expression × Nat × Nat),
        mlhsLoop (F - pre.length) temp rest (i + pre.length) (b + pre.length)
            0 false total s₁ = some (res₂, s') ∧
        res.1 = stats₁ ++ res₂.1 ∧ res.2 = res₂.2 := by
  intro pre
  induction pre with
  | nil =>
    intro F temp rest i b total s s' res hall h
    refine ⟨[], s, res, ?_, rfl, rfl⟩
    simpa using h
  | cons c pre' ih =>
    intro F temp rest i b total s s' res hall h
    rw [List.all_cons, Bool.and_eq_true] at hall
    obtain ⟨hc, hall'⟩ := hall
    cases F with
    | zero => exact Option.noConfusion h
    | succ f =>
      cases c
      case SplatLhsP v => simp [isSplatLhsNode] at hc
      case MlhsP inner =>
        obtain ⟨stat, s1, h1, h'⟩ := run_bind_inv h
        obtain ⟨r, s2, h2, h'⟩ := run_bind_inv h'
        obtain ⟨h3, h4⟩ := run_pure_inv h'
        obtain ⟨stats₁, sm, res₂, hrec, hst, hsnd⟩ :=
          ih f temp rest (i + 1) (b + 1) total s1 s2 r hall' h2
        rw [h4] at hrec
        refine ⟨stat :: stats₁, sm, res₂, ?_, ?_, ?_⟩
        · simp only [List.length_cons, Nat.succ_sub_succ]
          rw [show b + (pre'.length + 1) = b + 1 + pre'.length from by omega]
          rw [show i + ((pre'.length + 1 : Nat) : Int) = i + 1 + (pre'.length : Int)
            from by push_cast; ring]
          exact hrec
        · rw [← h3]
          simp [hst]
        · rw [← h3]
          exact hsnd
      all_goals
        obtain ⟨lh, s1, h1, h'⟩ := run_bind_inv h
        obtain ⟨r, s2, h2, h'⟩ := run_bind_inv h'
        obtain ⟨h3, h4⟩ := run_pure_inv h'
        obtain ⟨stats₁, sm, res₂, hrec, hst, hsnd⟩ :=
          ih f temp rest (i + 1) (b + 1) total s1 s2 r hall' h2
        rw [h4] at hrec
        refine ⟨MK.Assign lh (MK.Send1 (MK.LocalE temp) Names.squareBrackets
          (MK.IntE i)) :: stats₁, sm, res₂, ?_, ?_, ?_⟩
        · simp only [List.length_cons, Nat.succ_sub_succ]
          rw [show b + (pre'.length + 1) = b + 1 + pre'.length from by omega]
          rw [show i + ((pre'.length + 1 : Nat) : Int) = i + 1 + (pre'.length : Int)
            from by push_cast; ring]
          exact hrec
        · rw [← h3]
          simp [hst]
        · rw [← h3]
          exact hsnd

theorem inv_temp2 : Inv ⟨2, 1, [temp2], [temp2]⟩ :=
  ⟨by decide, by decide, by decide⟩

/-- C1 (corrected): a Send with an absent receiver lowers with the
receiver slot rewritten to `Self`, but only the splat-free branch keeps
that `Self` in receiver position with `PRIVATE_OK` set; when any argument
is a splat the result is a `Magic.callWithSplat` send whose receiver is
the `Magic` constant, whose flags are 0, and in which `Self` appears as
the first argument instead. -/
theorem claim1_amended :
    ∀ (fuel : Nat) (method : NameRef) (args : List PNode) (r : Expression) (s s' : StI),
      lower (fuel + 1) (some (.SendP none method args)) s = some (r, s') →
      (args.any isSplatNode = true →
        ∃ argArray blk, r = .SendE (.ConstantLit .Magic) Names.callWithSplat
          [.SelfExpr, .Lit (.sym method), argArray] 0 blk) ∧
      (args.any isSplatNode = false →
        ∃ args' blk, r = .SendE .SelfExpr method args' PRIVATE_OK blk) := by
  intro fuel method args r s s' h
  cases fuel with
  | zero =>
    rw [show lower 1 (some (.SendP none method args)) s = none from
      run_bind_none (s := s) rfl] at h
    cases h
  | succ f =>
    constructor
    · intro hsp
      have h' : ((lower (f + 1) none : M Expression) >>= fun rec0 =>
          (fun rf : Expression × Nat =>
            match args.any isSplatNode with
            | true =>
              lower (f + 1) (some (.ArrayP (extractBlockPass args).2)) >>= fun argsE =>
              node2Proc (f + 1) (extractBlockPass args).1 >>= fun blk =>
              (pure (MK.Send (MK.ConstantE .Magic) Names.callWithSplat
                [rf.1, .Lit (.sym method), argsE] 0 blk) : M Expression)
            | false =>
              sendArgsLoop (f + 1) args none >>= fun al =>
              node2Proc (f + 1) al.2 >>= fun blk =>
              (pure (MK.Send rf.1 method al.1 rf.2 blk) : M Expression))
          (if isEmptyTree rec0 then (Expression.SelfExpr, PRIVATE_OK)
           else (rec0, 0))) s = some (r, s') := h
      rw [run_bind (show (lower (f + 1) none : M Expression) s =
        some (.EmptyTree, s) from rfl), hsp] at h'
      simp only [isEmptyTree, if_true] at h'
      obtain ⟨argsE, s1, h1, h'⟩ := run_bind_inv h'
      obtain ⟨blk, s2, h2, h'⟩ := run_bind_inv h'
      obtain ⟨h3, -⟩ := run_pure_inv h'
      exact ⟨argsE, blk, h3.symm⟩
    · intro hsp
      have h' : ((lower (f + 1) none : M Expression) >>= fun rec0 =>
          (fun rf : Expression × Nat =>
            match args.any isSplatNode with
            | true =>
              lower (f + 1) (some (.ArrayP (extractBlockPass args).2)) >>= fun argsE =>
              node2Proc (f + 1) (extractBlockPass args).1 >>= fun blk =>
              (pure (MK.Send (MK.ConstantE .Magic) Names.callWithSplat
                [rf.1, .Lit (.sym method), argsE] 0 blk) : M Expression)
            | false =>
              sendArgsLoop (f + 1) args none >>= fun al =>
              node2Proc (f + 1) al.2 >>= fun blk =>
              (pure (MK.Send rf.1 method al.1 rf.2 blk) : M Expression))
          (if isEmptyTree rec0 then (Expression.SelfExpr, PRIVATE_OK)
           else (rec0, 0))) s = some (r, s') := h
      rw [run_bind (show (lower (f + 1) none : M Expression) s =
        some (.EmptyTree, s) from rfl), hsp] at h'
      simp only [isEmptyTree, if_true] at h'
      obtain ⟨al, s1, h1, h'⟩ := run_bind_inv h'
      obtain ⟨blk, s2, h2, h'⟩ := run_bind_inv h'
      obtain ⟨h3, -⟩ := run_pure_inv h'
      exact ⟨al.1, blk, h3.symm⟩

/-- C1 (counterexample): the receiverless splat send `m(*a)` lowers to a
`Magic.callWithSplat` send: its receiver is the `Magic` constant rather
than `Self`, and its flags word is 0, so `PRIVATE_OK` is not set on the
resulting Send as the claim states. -/
theorem claim1_counterexample :
    (lower 10 (some (.SendP none (.utf8 "m") [.SplatP (.LVarP (.utf8 "a"))])) st0).map
        (fun p => p.1)
      = some (.SendE (.ConstantLit .Magic) Names.callWithSplat
          [.SelfExpr, .Lit (.sym (.utf8 "m")),
           .SendE (.UnresolvedIdent .localK (.utf8 "a")) Names.to_a [] 0 none] 0 none) ∧
    (lower 10 (some (.SendP none (.utf8 "m") [.SplatP (.LVarP (.utf8 "a"))])) st0).map
        (fun p => sendSelfPrivateOk p.1) = some false :=
  ⟨rfl, rfl⟩

/-- C1 (witness): the amended theorem applied at the splat send `m(*a)`
and the plain send `m()`, both with absent receivers. -/
theorem claim1_witness :
    (∃ argArray blk, (Expression.SendE (.ConstantLit .Magic) Names.callWithSplat
        [.SelfExpr, .Lit (.sym (.utf8 "m")),
         .SendE (.UnresolvedIdent .localK (.utf8 "a")) Names.to_a [] 0 none] 0 none) =
      .SendE (.ConstantLit .Magic) Names.callWithSplat
        [.SelfExpr, .Lit (.sym (.utf8 "m")), argArray] 0 blk) ∧
    (∃ args' blk, (Expression.SendE .SelfExpr (.utf8 "m") [] PRIVATE_OK none) =
      .SendE .SelfExpr (.utf8 "m") args' PRIVATE_OK blk) :=
  ⟨(claim1_amended 8 (.utf8 "m") [.SplatP (.LVarP (.utf8 "a"))] _ st0 _ rfl).1 rfl,
   (claim1_amended 8 (.utf8 "m") [] _ st0 _ rfl).2 rfl⟩

/-- C2 (corrected): names minted inside one counter scope carry the
successive pre-incremented counter values, so as long as a scope mints at
most 2^16 names they are pairwise distinct; the scope is not the whole
top-level invocation, because method definitions and class/module bodies
restart the counter at 1. -/
theorem claim2_amended :
    ∀ (fuel : Nat) (w : Option PNode) (s s' : StI) (r : Expression),
      lower fuel w s = some (r, s') →
      s'.val.scopeLog.map mintNum =
        incList s'.val.scopeStart s'.val.scopeLog.length ∧
      (s'.val.scopeLog.length ≤ u2Mod →
        pairwiseDistinct s'.val.scopeLog = true) := by
  intro fuel w s s' r _h
  obtain ⟨h1, -, h3⟩ := s'.property
  refine ⟨h3, fun hlen => ?_⟩
  have hnodup : (s'.val.scopeLog.map mintNum).Nodup := by
    rw [h3]
    exact incList_nodup _ _ (by simpa using hlen)
  exact pairwiseDistinct_of_nodup hnodup.of_map

/-- C2 (counterexample): one top-level invocation of the lowering, on a
program with two sibling module bodies, mints the same fresh name twice
(`assignTemp` at counter 2 in each body), so the minted names of one
invocation are not pairwise distinct. -/
theorem claim2_counterexample :
    (lower 30 (some c2prog) st0).map (fun p => p.2.val.allLog) =
      some [temp2, temp2] ∧
    pairwiseDistinct [temp2, temp2] = false :=
  ⟨rfl, rfl⟩

/-- C2 (witness): the amended theorem applied to a lowering of a single
multiple assignment, whose scope log is the one minted temporary. -/
theorem claim2_witness :
    (lower 20 (some (.MasgnP (.MlhsP [.LVarLhsP (.utf8 "a")]) (.LVarP (.utf8 "r")))) st0).map
      (fun p => pairwiseDistinct p.2.val.scopeLog) = some true := by
  have h : lower 20 (some (.MasgnP (.MlhsP [.LVarLhsP (.utf8 "a")]) (.LVarP (.utf8 "r")))) st0 =
      some (.InsSeq
        [.AssignE (MK.LocalE temp2)
          (.SendE (.ConstantLit .Magic) Names.expandSplat
            [MK.LocalE (.utf8 "r"), .Lit (.int 1), .Lit (.int 0)] 0 none),
         .AssignE (MK.LocalE (.utf8 "a"))
          (.SendE (MK.LocalE temp2) Names.squareBrackets [.Lit (.int 0)] 0 none)]
        (MK.LocalE temp2),
        ⟨⟨2, 1, [temp2], [temp2]⟩, inv_temp2⟩) := rfl
  rw [h]
  have h2 := (claim2_amended 20 _ st0 ⟨⟨2, 1, [temp2], [temp2]⟩, inv_temp2⟩ _ h).2 (by decide)
  simpa using h2

/-- C3 (code bug): in `desugarDString` every piece after the first is
wrapped in a `to_s` send even when it is a string literal, because the
loop tests the moved-from `first` instead of the current piece; the
parallel `DSymbol` clause tests the current piece and leaves the string
literal bare, matching the claim. -/
theorem claim3_theorem :
    (lower 10 (some (.DStringP [.StrP (.utf8 "a"), .StrP (.utf8 "b")])) st0).map (fun p => p.1)
      = some (.SendE (.Lit (.str (.utf8 "a"))) Names.concat
          [.SendE (.Lit (.str (.utf8 "b"))) Names.to_s [] 0 none] 0 none) ∧
    isStringLit (.Lit (.str (.utf8 "b"))) = true ∧
    (lower 10 (some (.DSymbolP [.StrP (.utf8 "a"), .StrP (.utf8 "b")])) st0).map (fun p => p.1)
      = some (.SendE (.SendE (.Lit (.str (.utf8 "a"))) Names.concat
          [.Lit (.str (.utf8 "b"))] 0 none) Names.intern [] 0 none) :=
  ⟨rfl, rfl, rfl⟩

/-- C4 (corrected): in a case expression with a scrutinee, the scrutinee
is bound once to a fresh temporary and a two-pattern when clause is
OR-folded as `If(p2 === t, true, p1 === t)`: the accumulated condition
nests under each later pattern, so the last pattern's test is outermost
and is evaluated first, not the first pattern's. -/
theorem claim4_amended :
    ∀ (f : Nat) (xN p1 p2 : PNode) (bodyN elseN : Option PNode)
      (t : NameRef) (xE eE p1E p2E bE : Expression) (s s1 s2 s3 s4 s5 s6 : StI),
      freshNameUnique Names.assignTemp s = some (t, s1) →
      lower (f + 4) (some xN) s1 = some (xE, s2) →
      lower (f + 4) elseN s2 = some (eE, s3) →
      lower (f + 2) (some p1) s3 = some (p1E, s4) →
      lower (f + 1) (some p2) s4 = some (p2E, s5) →
      lower (f + 3) bodyN s5 = some (bE, s6) →
      lower (f + 5) (some (.CaseP (some xN) [.WhenP [p1, p2] bodyN] elseN)) s =
        some (.InsSeq [.AssignE (MK.LocalE t) xE]
          (.IfE (.IfE (MK.Send1 p2E Names.tripleEq (MK.LocalE t)) MK.TrueE
                      (MK.Send1 p1E Names.tripleEq (MK.LocalE t)))
                bE eE), s6) := by
  intro f xN p1 p2 bodyN elseN t xE eE p1E p2E bE s s1 s2 s3 s4 s5 s6
  intro h0 h1 h2 h3 h4 h5
  have hwc : whenCond (f + 3) (some t) [p1, p2] none s3 =
      some (some (.IfE (MK.Send1 p2E Names.tripleEq (MK.LocalE t)) MK.TrueE
        (MK.Send1 p1E Names.tripleEq (MK.LocalE t))), s5) := by
    show ((lower (f + 2) (some p1) : M Expression) >>= fun ctree =>
      whenCond (f + 2) (some t) [p2]
        (some (match (some t : Option NameRef) with
          | some tv => MK.Send1 ctree Names.tripleEq (MK.LocalE tv)
          | none => ctree))) s3 = _
    rw [run_bind' h3]
    show ((lower (f + 1) (some p2) : M Expression) >>= fun ctree =>
      whenCond (f + 1) (some t) []
        (some (.IfE (MK.Send1 ctree Names.tripleEq (MK.LocalE t)) MK.TrueE
          (MK.Send1 p1E Names.tripleEq (MK.LocalE t))))) s4 = _
    rw [run_bind' h4]
    rfl
  have hcw : caseWhens (f + 4) (some t) [.WhenP [p1, p2] bodyN] eE s3 =
      some (.IfE (.IfE (MK.Send1 p2E Names.tripleEq (MK.LocalE t)) MK.TrueE
        (MK.Send1 p1E Names.tripleEq (MK.LocalE t))) bE eE, s6) := by
    show ((caseWhens (f + 3) (some t) [] eE : M Expression) >>= fun res =>
      whenCond (f + 3) (some t) [p1, p2] none >>= fun cond =>
      (match cond with
       | none => mfail
       | some cond => (lower (f + 3) bodyN : M Expression) >>= fun b =>
           (pure (MK.IfE cond b res) : M Expression))) s3 = _
    rw [run_bind' (show (caseWhens (f + 3) (some t) [] eE : M Expression) s3 =
      some (eE, s3) from rfl)]
    rw [run_bind' hwc]
    show ((lower (f + 3) bodyN : M Expression) >>= fun b =>
      (pure (MK.IfE _ b eE) : M Expression)) s5 = _
    rw [run_bind' h5]
    rfl
  show ((freshNameUnique Names.assignTemp : M NameRef) >>= fun temp =>
    (lower (f + 4) (some xN) : M Expression) >>= fun ce =>
    (lower (f + 4) elseN : M Expression) >>= fun res =>
    (caseWhens (f + 4) (some temp) [.WhenP [p1, p2] bodyN] res : M Expression) >>= fun res2 =>
    (pure (MK.InsSeq1 (MK.AssignLocal temp ce) res2) : M Expression)) s = _
  rw [run_bind' h0, run_bind' h1, run_bind' h2, run_bind' hcw]
  rfl

/-- C4 (counterexample): `case x; when 1, 2 then :a; else :b; end` lowers
with the when condition `If(2 === t, true, 1 === t)`, which differs from
the claimed `If(1 === t, true, 2 === t)` that would test pattern 1 first. -/
theorem claim4_counterexample :
    (lower 20 (some c4case) st0).map (fun p => p.1) =
      some (.InsSeq [.AssignE (MK.LocalE temp2) (MK.LocalE (.utf8 "x"))]
        (.IfE (.IfE (.SendE (.Lit (.int 2)) Names.tripleEq [MK.LocalE temp2] 0 none)
                (.Lit .trueL)
                (.SendE (.Lit (.int 1)) Names.tripleEq [MK.LocalE temp2] 0 none))
          (.Lit (.sym (.utf8 "a"))) (.Lit (.sym (.utf8 "b"))))) ∧
    ¬ (lower 20 (some c4case) st0).map (fun p => p.1) =
      some (.InsSeq [.AssignE (MK.LocalE temp2) (MK.LocalE (.utf8 "x"))]
        (.IfE (.IfE (.SendE (.Lit (.int 1)) Names.tripleEq [MK.LocalE temp2] 0 none)
                (.Lit .trueL)
                (.SendE (.Lit (.int 2)) Names.tripleEq [MK.LocalE temp2] 0 none))
          (.Lit (.sym (.utf8 "a"))) (.Lit (.sym (.utf8 "b"))))) := by
  have h1 : (lower 20 (some c4case) st0).map (fun p => p.1) =
      some (.InsSeq [.AssignE (MK.LocalE temp2) (MK.LocalE (.utf8 "x"))]
        (.IfE (.IfE (.SendE (.Lit (.int 2)) Names.tripleEq [MK.LocalE temp2] 0 none)
                (.Lit .trueL)
                (.SendE (.Lit (.int 1)) Names.tripleEq [MK.LocalE temp2] 0 none))
          (.Lit (.sym (.utf8 "a"))) (.Lit (.sym (.utf8 "b"))))) := rfl
  refine ⟨h1, fun hc => ?_⟩
  rw [h1] at hc
  simp at hc

/-- C4 (witness): the amended theorem applied at the claim's concrete
example with scrutinee `x`, patterns 1 and 2, and symbol bodies. -/
theorem claim4_witness :
    lower 6 (some c4case) st0 =
      some (.InsSeq [.AssignE (MK.LocalE temp2) (MK.LocalE (.utf8 "x"))]
        (.IfE (.IfE (MK.Send1 (.Lit (.int 2)) Names.tripleEq (MK.LocalE temp2)) MK.TrueE
                    (MK.Send1 (.Lit (.int 1)) Names.tripleEq (MK.LocalE temp2)))
              (.Lit (.sym (.utf8 "a"))) (.Lit (.sym (.utf8 "b")))),
        ⟨⟨2, 1, [temp2], [temp2]⟩, inv_temp2⟩) :=
  claim4_amended 1 (.LVarP (.utf8 "x")) (.IntegerP "1") (.IntegerP "2")
    (some (.SymP (.utf8 "a"))) (some (.SymP (.utf8 "b"))) temp2
    _ _ _ _ _ st0 _ _ _ _ _ _ rfl rfl rfl rfl rfl rfl

/-- C5 (corrected): for a multiple assignment whose splat target binds a
local, the emitted statement is `y = t.slice(Range.new(left, e, excl))`
where `left` counts the targets before the splat, the end index `e` is
`-right` for `right > 0` targets after the splat and `-1` when `right`
is zero, and the exclusive flag is set exactly when `right` is nonzero
(the claim has the flag inverted). -/
theorem claim5_amended :
    ∀ (F : Nat) (pre post : List PNode) (y : NameRef) (rhs : Expression)
      (s s' : StI) (r : Expression),
      pre.all (fun c => !isSplatLhsNode c) = true →
      desugarMlhs F (pre ++ .SplatLhsP (some (.LVarLhsP y)) :: post) rhs s =
        some (r, s') →
      ∃ (t : NameRef) (preStats postStats : List Expression) (aft : Nat),
        r = .InsSeq
          (MK.AssignLocal t (MK.Send (MK.ConstantE .Magic) Names.expandSplat
              [rhs, MK.IntE pre.length, MK.IntE aft] 0 none)
            :: (preStats ++ splatSliceStat t y pre.length post.length :: postStats))
          (MK.LocalE t) := by
  intro F pre post y rhs s s' r hall h
  cases F with
  | zero => exact Option.noConfusion h
  | succ f =>
    obtain ⟨t, s0, hfresh, h'⟩ := run_bind_inv h
    obtain ⟨lr, s1, hloop, h'⟩ := run_bind_inv h'
    obtain ⟨hres, -⟩ := run_pure_inv h'
    obtain ⟨preStats, sm, res₂, hrest, hst1, hst2⟩ :=
      mlhsLoop_pre pre f t (.SplatLhsP (some (.LVarLhsP y)) :: post) 0 0 _ s0 s1 lr
        hall hloop
    simp only [zero_add] at hrest
    cases hfp : f - pre.length with
    | zero => rw [hfp] at hrest; exact Option.noConfusion hrest
    | succ m =>
      rw [hfp] at hrest
      obtain ⟨lh, sv, hlh, h2⟩ := run_bind_inv hrest
      cases m with
      | zero => exact Option.noConfusion hlh
      | succ m2 =>
        rw [show (lower (m2 + 1) (some (.LVarLhsP y)) : M Expression) sm =
          some (MK.LocalE y, sm) from rfl] at hlh
        injection hlh with hpair
        injection hpair with hlh1 hlh2
        subst hlh1
        subst hlh2
        obtain ⟨r0, sr, hrec, h3⟩ := run_bind_inv h2
        obtain ⟨hres2, -⟩ := run_pure_inv h3
        have hbefore : r0.2.1 = pre.length :=
          mlhsLoop_before_const _ _ _ _ _ _ _ _ _ _ hrec
        have hlen : ((pre ++ .SplatLhsP (some (.LVarLhsP y)) :: post).length : Int) -
            (pre.length : Int) - 1 = (post.length : Int) := by
          simp only [List.length_append, List.length_cons]
          push_cast
          ring
        rw [hlen] at hres2
        have hrx1 : (if (post.length : Int) = 0 then ((1 : Int), MK.FalseE)
            else ((post.length : Int), MK.TrueE)).1 =
            (if post.length = 0 then (1 : Int) else (post.length : Int)) := by
          by_cases hp : post.length = 0 <;> simp [hp]
        have hrx2 : (if (post.length : Int) = 0 then ((1 : Int), MK.FalseE)
            else ((post.length : Int), MK.TrueE)).2 =
            (if post.length = 0 then MK.FalseE else MK.TrueE) := by
          by_cases hp : post.length = 0 <;> simp [hp]
        rw [hrx1, hrx2] at hres2
        have hb2 : lr.2.1 = pre.length := by
          rw [hst2, ← hres2]
          exact hbefore
        refine ⟨t, preStats, r0.1, lr.2.2, ?_⟩
        rw [← hres, hb2, hst1, ← hres2]
        rfl

/-- C5 (counterexample): for `x, *y = r` (so `right = 0`) the splat slice
is `Range.new(1, -1, false)`: the end index is forced to `-1` and the
exclusive flag is false, not true as the claim's `exclusive = (right==0)`
would require. -/
theorem claim5_counterexample :
    (lower 20 (some c5masgn) st0).map (fun p => p.1) =
      some (.InsSeq
        [.AssignE (MK.LocalE temp2)
          (.SendE (.ConstantLit .Magic) Names.expandSplat
            [MK.LocalE (.utf8 "r"), .Lit (.int 1), .Lit (.int 0)] 0 none),
         .AssignE (MK.LocalE (.utf8 "x"))
          (.SendE (MK.LocalE temp2) Names.squareBrackets [.Lit (.int 0)] 0 none),
         .AssignE (MK.LocalE (.utf8 "y"))
          (.SendE (MK.LocalE temp2) Names.slice
            [.SendE (.ConstantLit .RangeSym) Names.new_
              [.Lit (.int 1), .Lit (.int (-1)), .Lit .falseL] 0 none] 0 none)]
        (MK.LocalE temp2)) ∧
    ¬ (lower 20 (some c5masgn) st0).map (fun p => p.1) =
      some (.InsSeq
        [.AssignE (MK.LocalE temp2)
          (.SendE (.ConstantLit .Magic) Names.expandSplat
            [MK.LocalE (.utf8 "r"), .Lit (.int 1), .Lit (.int 0)] 0 none),
         .AssignE (MK.LocalE (.utf8 "x"))
          (.SendE (MK.LocalE temp2) Names.squareBrackets [.Lit (.int 0)] 0 none),
         .AssignE (MK.LocalE (.utf8 "y"))
          (.SendE (MK.LocalE temp2) Names.slice
            [.SendE (.ConstantLit .RangeSym) Names.new_
              [.Lit (.int 1), .Lit (.int 0), .Lit .trueL] 0 none] 0 none)]
        (MK.LocalE temp2)) := by
  have h1 : (lower 20 (some c5masgn) st0).map (fun p => p.1) =
      some (.InsSeq
        [.AssignE (MK.LocalE temp2)
          (.SendE (.ConstantLit .Magic) Names.expandSplat
            [MK.LocalE (.utf8 "r"), .Lit (.int 1), .Lit (.int 0)] 0 none),
         .AssignE (MK.LocalE (.utf8 "x"))
          (.SendE (MK.LocalE temp2) Names.squareBrackets [.Lit (.int 0)] 0 none),
         .AssignE (MK.LocalE (.utf8 "y"))
          (.SendE (MK.LocalE temp2) Names.slice
            [.SendE (.ConstantLit .RangeSym) Names.new_
              [.Lit (.int 1), .Lit (.int (-1)), .Lit .falseL] 0 none] 0 none)]
        (MK.LocalE temp2)) := rfl
  refine ⟨h1, fun hc => ?_⟩
  rw [h1] at hc
  simp at hc

/-- C5 (witness): the amended theorem applied at `x, *y = r`, whose slice
statement carries `Range.new(1, -1, false)`. -/
theorem claim5_witness :
    ([PNode.LVarLhsP (.utf8 "x")].all (fun c => !isSplatLhsNode c) = true) ∧
    (∃ (t : NameRef) (preStats postStats : List Expression) (aft : Nat),
      Expression.InsSeq
        [.AssignE (MK.LocalE temp2)
          (.SendE (.ConstantLit .Magic) Names.expandSplat
            [MK.LocalE (.utf8 "r"), .Lit (.int 1), .Lit (.int 0)] 0 none),
         .AssignE (MK.LocalE (.utf8 "x"))
          (.SendE (MK.LocalE temp2) Names.squareBrackets [.Lit (.int 0)] 0 none),
         .AssignE (MK.LocalE (.utf8 "y"))
          (.SendE (MK.LocalE temp2) Names.slice
            [.SendE (.ConstantLit .RangeSym) Names.new_
              [.Lit (.int 1), .Lit (.int (-1)), .Lit .falseL] 0 none] 0 none)]
        (MK.LocalE temp2) =
      .InsSeq (MK.AssignLocal t (MK.Send (MK.ConstantE .Magic) Names.expandSplat
          [MK.LocalE (.utf8 "r"), MK.IntE 1, MK.IntE aft] 0 none)
        :: (preStats ++ splatSliceStat t (.utf8 "y") 1 0 :: postStats))
        (MK.LocalE t)) :=
  ⟨rfl, claim5_amended 10 [.LVarLhsP (.utf8 "x")] [] (.utf8 "y")
    (MK.LocalE (.utf8 "r")) st0 _ _ rfl rfl⟩

/-- C6 (confirmed): lowering `begin; body; rescue E => e; h; ensure; fin; end`
yields `Rescue(body, [RescueCase([E], e, h)], EmptyTree, fin)`: the
exception list is the unpacked one-element array, the identifier LHS `e`
is captured directly as the bound variable, the else slot is `EmptyTree`,
and the Ensure clause stores `fin` in the existing Rescue's ensure slot
instead of creating a second Rescue. -/
theorem claim6_theorem :
    ∀ (g : Nat) (bodyN hN finN : Option PNode) (E e : NameRef)
      (bE hE finE : Expression) (s s1 s2 s3 : StI),
      lower (g + 4) hN s = some (hE, s1) →
      lower (g + 6) bodyN s1 = some (bE, s2) →
      lower (g + 7) finN s2 = some (finE, s3) →
      lower (g + 8) (some (.EnsureP
          (some (.RescueP bodyN
            [.ResbodyP (some (.ArrayP [.ConstP none E]))
              (some (.LVarLhsP e)) hN] none))
          finN)) s =
        some (.RescueE bE
          [.RescueCaseE [.UnresolvedConstant .EmptyTree E] (MK.LocalE e) hE]
          .EmptyTree finE, s3) := by
  intro g bodyN hN finN E e bE hE finE s s1 s2 s3 hh hb hf
  have hexc : (lower (g + 4) (some (.ArrayP [.ConstP none E])) : M Expression) s =
      some (.ArrayE [.UnresolvedConstant .EmptyTree E], s) := rfl
  have hRB : lower (g + 5) (some (.ResbodyP (some (.ArrayP [.ConstP none E]))
      (some (.LVarLhsP e)) hN)) s =
      some (.RescueCaseE [.UnresolvedConstant .EmptyTree E] (MK.LocalE e) hE, s1) := by
    show ((lower (g + 4) (some (.ArrayP [.ConstP none E])) : M Expression) >>= fun excE =>
      (match excE with
       | .EmptyTree => (pure ([] : List Expression) : M (List Expression))
       | .ArrayE elems => pure elems
       | .SendE r fn a fl b =>
         if fn = Names.splatName ∨ fn = Names.to_a ∨ fn = Names.concat then
           pure [Expression.SendE r fn a fl b]
         else mfail
       | _ => mfail) >>= fun exceptions =>
      (lower (g + 4) (some (.LVarLhsP e)) : M Expression) >>= fun varExpr =>
      (lower (g + 4) hN : M Expression) >>= fun b =>
      (match varExpr with
       | .UnresolvedIdent .localK nm =>
         (pure (Expression.RescueCaseE exceptions (MK.LocalE nm) b) : M Expression)
       | .EmptyTree =>
         (freshNameUnique Names.rescueTemp : M NameRef) >>= fun v =>
         (pure (Expression.RescueCaseE exceptions (MK.LocalE v) b) : M Expression)
       | ve =>
         (freshNameUnique Names.rescueTemp : M NameRef) >>= fun v =>
         (pure (Expression.RescueCaseE exceptions (MK.LocalE v)
           (MK.InsSeq1 (MK.Assign ve (MK.LocalE v)) b)) : M Expression))) s = _
    rw [run_bind' hexc]
    rw [run_bind' (show (pure [Expression.UnresolvedConstant .EmptyTree E] :
      M (List Expression)) s = some ([.UnresolvedConstant .EmptyTree E], s) from rfl)]
    rw [run_bind' (show (lower (g + 4) (some (.LVarLhsP e)) : M Expression) s =
      some (MK.LocalE e, s) from rfl)]
    rw [run_bind' hh]
    rfl
  have hcs : rescueCases (g + 6) [.ResbodyP (some (.ArrayP [.ConstP none E]))
      (some (.LVarLhsP e)) hN] s =
      some ([.RescueCaseE [.UnresolvedConstant .EmptyTree E] (MK.LocalE e) hE], s1) := by
    show ((lower (g + 5) (some (.ResbodyP (some (.ArrayP [.ConstP none E]))
        (some (.LVarLhsP e)) hN)) : M Expression) >>= fun c =>
      (match c with
       | .RescueCaseE a b d =>
         (rescueCases (g + 5) [] : M (List Expression)) >>= fun rest =>
         (pure (Expression.RescueCaseE a b d :: rest) : M (List Expression))
       | _ => mfail)) s = _
    rw [run_bind' hRB]
    rfl
  have hR : lower (g + 7) (some (.RescueP bodyN
      [.ResbodyP (some (.ArrayP [.ConstP none E])) (some (.LVarLhsP e)) hN] none)) s =
      some (.RescueE bE
        [.RescueCaseE [.UnresolvedConstant .EmptyTree E] (MK.LocalE e) hE]
        .EmptyTree .EmptyTree, s2) := by
    show ((rescueCases (g + 6) [.ResbodyP (some (.ArrayP [.ConstP none E]))
        (some (.LVarLhsP e)) hN] : M (List Expression)) >>= fun cs =>
      (lower (g + 6) bodyN : M Expression) >>= fun b =>
      (lower (g + 6) none : M Expression) >>= fun els =>
      (pure (Expression.RescueE b cs els .EmptyTree) : M Expression)) s = _
    rw [run_bind' hcs, run_bind' hb]
    rw [run_bind' (show (lower (g + 6) none : M Expression) s2 =
      some (.EmptyTree, s2) from rfl)]
    rfl
  show ((lower (g + 7) (some (.RescueP bodyN
      [.ResbodyP (some (.ArrayP [.ConstP none E])) (some (.LVarLhsP e)) hN] none)) :
        M Expression) >>= fun b =>
    (lower (g + 7) finN : M Expression) >>= fun ens =>
    (match b with
     | .RescueE rb rc rel _ =>
       (pure (Expression.RescueE rb rc rel ens) : M Expression)
     | _ => (pure (Expression.RescueE b [] .EmptyTree ens) : M Expression))) s = _
  rw [run_bind' hR, run_bind' hf]
  rfl

/-- C6 (witness): the theorem applied at concrete local-variable bodies,
`rescue E => e` and an ensure expression. -/
theorem claim6_witness :
    lower 8 (some (.EnsureP (some (.RescueP (some (.LVarP (.utf8 "b")))
      [.ResbodyP (some (.ArrayP [.ConstP none (.utf8 "E")]))
        (some (.LVarLhsP (.utf8 "e"))) (some (.LVarP (.utf8 "h")))] none))
      (some (.LVarP (.utf8 "fin"))))) st0 =
    some (.RescueE (MK.LocalE (.utf8 "b"))
      [.RescueCaseE [.UnresolvedConstant .EmptyTree (.utf8 "E")]
        (MK.LocalE (.utf8 "e")) (MK.LocalE (.utf8 "h"))]
      .EmptyTree (MK.LocalE (.utf8 "fin")), st0) :=
  claim6_theorem 0 (some (.LVarP (.utf8 "b"))) (some (.LVarP (.utf8 "h")))
    (some (.LVarP (.utf8 "fin"))) (.utf8 "E") (.utf8 "e")
    _ _ _ st0 st0 st0 st0 rfl rfl rfl

/-- C7 (corrected): Return, Break and Next lower as the claim states
(zero arguments give an empty value, one argument is wrapped directly,
two or more are wrapped in a single Array), but Yield always receives the
lowered arguments as its argument list and never wraps them in an Array. -/
theorem claim7_amended :
    (∀ (fuel : Nat) (s : StI),
      lower (fuel + 1) (some (.ReturnP [])) s = some (.ReturnE .EmptyTree, s)) ∧
    (∀ (fuel : Nat) (e : PNode) (eE : Expression) (s s' : StI),
      lower fuel (some e) s = some (eE, s') →
      lower (fuel + 1) (some (.ReturnP [e])) s = some (.ReturnE eE, s')) ∧
    (∀ (fuel : Nat) (e1 e2 : PNode) (es : List PNode) (esE : List Expression) (s s' : StI),
      lowerList fuel (e1 :: e2 :: es) s = some (esE, s') →
      lower (fuel + 1) (some (.ReturnP (e1 :: e2 :: es))) s =
        some (.ReturnE (.ArrayE esE), s')) ∧
    (∀ (fuel : Nat) (s : StI),
      lower (fuel + 1) (some (.BreakP [])) s = some (.BreakE .EmptyTree, s)) ∧
    (∀ (fuel : Nat) (e : PNode) (eE : Expression) (s s' : StI),
      lower fuel (some e) s = some (eE, s') →
      lower (fuel + 1) (some (.BreakP [e])) s = some (.BreakE eE, s')) ∧
    (∀ (fuel : Nat) (e1 e2 : PNode) (es : List PNode) (esE : List Expression) (s s' : StI),
      lowerList fuel (e1 :: e2 :: es) s = some (esE, s') →
      lower (fuel + 1) (some (.BreakP (e1 :: e2 :: es))) s =
        some (.BreakE (.ArrayE esE), s')) ∧
    (∀ (fuel : Nat) (s : StI),
      lower (fuel + 1) (some (.NextP [])) s = some (.NextE .EmptyTree, s)) ∧
    (∀ (fuel : Nat) (e : PNode) (eE : Expression) (s s' : StI),
      lower fuel (some e) s = some (eE, s') →
      lower (fuel + 1) (some (.NextP [e])) s = some (.NextE eE, s')) ∧
    (∀ (fuel : Nat) (e1 e2 : PNode) (es : List PNode) (esE : List Expression) (s s' : StI),
      lowerList fuel (e1 :: e2 :: es) s = some (esE, s') →
      lower (fuel + 1) (some (.NextP (e1 :: e2 :: es))) s =
        some (.NextE (.ArrayE esE), s')) ∧
    (∀ (fuel : Nat) (es : List PNode) (esE : List Expression) (s s' : StI),
      lowerList fuel es s = some (esE, s') →
      lower (fuel + 1) (some (.YieldP es)) s = some (.YieldE esE, s')) := by
  refine ⟨fun _ _ => rfl, ?_, ?_, fun _ _ => rfl, ?_, ?_, fun _ _ => rfl, ?_, ?_, ?_⟩
  · intro fuel e eE s s' h
    show (lower fuel (some e) >>= fun e' =>
      (pure (Expression.ReturnE e') : M Expression)) s = _
    rw [run_bind h]; rfl
  · intro fuel e1 e2 es esE s s' h
    show (lowerList fuel (e1 :: e2 :: es) >>= fun elems =>
      (pure (Expression.ReturnE (.ArrayE elems)) : M Expression)) s = _
    rw [run_bind h]; rfl
  · intro fuel e eE s s' h
    show (lower fuel (some e) >>= fun e' =>
      (pure (Expression.BreakE e') : M Expression)) s = _
    rw [run_bind h]; rfl
  · intro fuel e1 e2 es esE s s' h
    show (lowerList fuel (e1 :: e2 :: es) >>= fun elems =>
      (pure (Expression.BreakE (.ArrayE elems)) : M Expression)) s = _
    rw [run_bind h]; rfl
  · intro fuel e eE s s' h
    show (lower fuel (some e) >>= fun e' =>
      (pure (Expression.NextE e') : M Expression)) s = _
    rw [run_bind h]; rfl
  · intro fuel e1 e2 es esE s s' h
    show (lowerList fuel (e1 :: e2 :: es) >>= fun elems =>
      (pure (Expression.NextE (.ArrayE elems)) : M Expression)) s = _
    rw [run_bind h]; rfl
  · intro fuel es esE s s' h
    show (lowerList fuel es >>= fun elems =>
      (pure (Expression.YieldE elems) : M Expression)) s = _
    rw [run_bind h]; rfl

/-- C7 (counterexample): `yield u, v` lowers to a Yield carrying the two
lowered arguments directly, not a Yield of a single two-element Array as
the claim states for two or more arguments. -/
theorem claim7_counterexample :
    (lower 10 (some (.YieldP [.LVarP (.utf8 "u"), .LVarP (.utf8 "v")])) st0).map
        (fun p => p.1)
      = some (.YieldE [MK.LocalE (.utf8 "u"), MK.LocalE (.utf8 "v")]) ∧
    ¬ (lower 10 (some (.YieldP [.LVarP (.utf8 "u"), .LVarP (.utf8 "v")])) st0).map
        (fun p => p.1)
      = some (.YieldE [.ArrayE [MK.LocalE (.utf8 "u"), MK.LocalE (.utf8 "v")]]) := by
  have h1 : (lower 10 (some (.YieldP [.LVarP (.utf8 "u"), .LVarP (.utf8 "v")])) st0).map
      (fun p => p.1) = some (.YieldE [MK.LocalE (.utf8 "u"), MK.LocalE (.utf8 "v")]) := rfl
  refine ⟨h1, fun hc => ?_⟩
  rw [h1] at hc
  simp [MK.LocalE] at hc

/-- C7 (witness): the amended theorem applied at a one-argument return
and a two-argument yield. -/
theorem claim7_witness :
    lower 3 (some (.ReturnP [.LVarP (.utf8 "u")])) st0 =
      some (.ReturnE (MK.LocalE (.utf8 "u")), st0) ∧
    lower 4 (some (.YieldP [.LVarP (.utf8 "u"), .LVarP (.utf8 "v")])) st0 =
      some (.YieldE [MK.LocalE (.utf8 "u"), MK.LocalE (.utf8 "v")], st0) :=
  ⟨claim7_amended.2.1 2 _ _ st0 st0 rfl,
   claim7_amended.2.2.2.2.2.2.2.2.2 3 _ _ st0 st0 rfl⟩

/-- C8 (corrected): only `ClassDef`s built by the Class clause get an
ancestor (the `todo` placeholder when no superclass is written, otherwise
the lowered superclass); modules, singleton classes and the synthetic
root class produced by `liftTopLevel` all have empty ancestor lists. -/
theorem claim8_amended :
    (∀ (fuel : Nat) (name : PNode) (bodyN : Option PNode) (b : List Expression)
       (nE : Expression) (s s1 s2 : StI),
      scopeNodeToBody fuel bodyN s = some (b, s1) →
      lower fuel (some name) s1 = some (nE, s2) →
      lower (fuel + 1) (some (.ClassP name none bodyN)) s =
        some (.ClassDefE .todoSym nE [MK.ConstantE .todoSym] b .classKind, s2)) ∧
    (∀ (fuel : Nat) (name sc : PNode) (bodyN : Option PNode) (b : List Expression)
       (scE nE : Expression) (s s1 s2 s3 : StI),
      scopeNodeToBody fuel bodyN s = some (b, s1) →
      lower fuel (some sc) s1 = some (scE, s2) →
      lower fuel (some name) s2 = some (nE, s3) →
      lower (fuel + 1) (some (.ClassP name (some sc) bodyN)) s =
        some (.ClassDefE .todoSym nE [scE] b .classKind, s3)) ∧
    (∀ (fuel : Nat) (name : PNode) (bodyN : Option PNode) (b : List Expression)
       (nE : Expression) (s s1 s2 : StI),
      scopeNodeToBody fuel bodyN s = some (b, s1) →
      lower fuel (some name) s1 = some (nE, s2) →
      lower (fuel + 1) (some (.ModuleP name bodyN)) s =
        some (.ClassDefE .todoSym nE [] b .moduleKind, s2)) ∧
    (∀ (fuel : Nat) (bodyN : Option PNode) (b : List Expression) (s s1 : StI),
      scopeNodeToBody fuel bodyN s = some (b, s1) →
      lower (fuel + 1) (some (.SClassP .SelfP bodyN)) s =
        some (.ClassDefE .todoSym (.UnresolvedIdent .classK Names.singletonName)
          [] b .classKind, s1)) ∧
    (∀ e, isClassDefE e = false → classDefHasAncestor (liftTopLevel e) = false) := by
  refine ⟨?_, ?_, ?_, ?_, ?_⟩
  · intro fuel name bodyN b nE s s1 s2 h1 h2
    show (scopeNodeToBody fuel bodyN >>= fun b =>
      (pure [MK.ConstantE .todoSym] : M (List Expression)) >>= fun ancestors =>
      lower fuel (some name) >>= fun n =>
      (pure (Expression.ClassDefE .todoSym n ancestors b .classKind) :
        M Expression)) s = _
    rw [run_bind h1, run_bind (run_pure _ _), run_bind h2]; rfl
  · intro fuel name sc bodyN b scE nE s s1 s2 s3 h1 h2 h3
    show (scopeNodeToBody fuel bodyN >>= fun b =>
      (lower fuel (some sc) >>= fun x =>
        (pure [x] : M (List Expression))) >>= fun ancestors =>
      lower fuel (some name) >>= fun n =>
      (pure (Expression.ClassDefE .todoSym n ancestors b .classKind) :
        M Expression)) s = _
    rw [run_bind h1, run_bind (run_bind h2), run_bind h3]; rfl
  · intro fuel name bodyN b nE s s1 s2 h1 h2
    show (scopeNodeToBody fuel bodyN >>= fun b =>
      lower fuel (some name) >>= fun n =>
      (pure (Expression.ClassDefE .todoSym n [] b .moduleKind) :
        M Expression)) s = _
    rw [run_bind h1, run_bind h2]; rfl
  · intro fuel bodyN b s s1 h1
    show (scopeNodeToBody fuel bodyN >>= fun b =>
      (pure (Expression.ClassDefE .todoSym
        (.UnresolvedIdent .classK Names.singletonName) [] b .classKind) :
        M Expression)) s = _
    rw [run_bind h1]; rfl
  · intro e h
    cases e <;> simp_all [isClassDefE, classDefHasAncestor, liftTopLevel]

/-- C8 (counterexample): a module lowers to a `ClassDef` whose ancestor
list is empty, so the at-least-one-ancestor property does not hold for
every `ClassDef` the desugarer produces. -/
theorem claim8_counterexample :
    (lower 10 (some (.ModuleP (.ConstP none (.utf8 "M")) none)) st0).map (fun p => p.1) =
      some (.ClassDefE .todoSym (.UnresolvedConstant .EmptyTree (.utf8 "M")) []
        [.EmptyTree] .moduleKind) ∧
    (lower 10 (some (.ModuleP (.ConstP none (.utf8 "M")) none)) st0).map
      (fun p => classDefHasAncestor p.1) = some false :=
  ⟨rfl, rfl⟩

/-- C8 (witness): the amended theorem applied at an empty module and at a
class without a superclass. -/
theorem claim8_witness :
    lower 10 (some (.ModuleP (.ConstP none (.utf8 "M")) none)) st0 =
      some (.ClassDefE .todoSym (.UnresolvedConstant .EmptyTree (.utf8 "M")) []
        [.EmptyTree] .moduleKind, st0) ∧
    lower 10 (some (.ClassP (.ConstP none (.utf8 "C")) none none)) st0 =
      some (.ClassDefE .todoSym (.UnresolvedConstant .EmptyTree (.utf8 "C"))
        [MK.ConstantE .todoSym] [.EmptyTree] .classKind, st0) :=
  ⟨claim8_amended.2.2.1 9 _ none _ _ st0 st0 st0 rfl rfl,
   claim8_amended.1 9 _ none _ _ st0 st0 st0 rfl rfl⟩

/-- C9 (confirmed): `liftTopLevel` passes an already-lowered `ClassDef`
through unchanged (and is therefore idempotent), wraps an `InsSeq` into a
synthetic root class of kind class with empty ancestors whose body is the
statement list followed by the trailing expression, wraps anything else
as a one-element body, and `node2Tree` applies it to the lowering's
result. -/
theorem claim9_theorem :
    (∀ sy n a r k, liftTopLevel (.ClassDefE sy n a r k) = .ClassDefE sy n a r k) ∧
    (∀ stats e, liftTopLevel (.InsSeq stats e) =
        .ClassDefE .rootSym .EmptyTree [] (stats ++ [e]) .classKind) ∧
    (∀ e, isClassDefE e = false → isInsSeqE e = false →
        liftTopLevel e = .ClassDefE .rootSym .EmptyTree [] [e] .classKind) ∧
    (∀ e, liftTopLevel (liftTopLevel e) = liftTopLevel e) ∧
    (∀ fuel w r s, lower fuel (some w) st0 = some (r, s) →
        node2Tree fuel w = some (liftTopLevel r, s.val)) := by
  refine ⟨fun _ _ _ _ _ => rfl, fun _ _ => rfl, ?_, ?_, ?_⟩
  · intro e h1 h2
    cases e <;> simp_all [isClassDefE, isInsSeqE, liftTopLevel]
  · intro e
    cases e <;> rfl
  · intro fuel w r s h
    unfold node2Tree
    rw [h]

/-- C9 (witness): the lift applied to a non-ClassDef non-InsSeq tree, and
`node2Tree` on a nil literal producing the synthetic root class. -/
theorem claim9_witness :
    liftTopLevel .EmptyTree =
      .ClassDefE .rootSym .EmptyTree [] [.EmptyTree] .classKind ∧
    node2Tree 2 .NilP =
      some (.ClassDefE .rootSym .EmptyTree [] [.Lit .nilL] .classKind, st0.val) :=
  ⟨claim9_theorem.2.2.1 _ rfl rfl,
   claim9_theorem.2.2.2.2 2 .NilP (.Lit .nilL) st0 rfl⟩

/-- C10 (confirmed): a null parse node handed to the dispatch lowers to
`EmptyTree` with the state untouched, before any kind-based case
analysis, for any remaining recursion depth. -/
theorem claim10_theorem (fuel : Nat) (s : StI) :
    lower (fuel + 1) none s = some (.EmptyTree, s) := rfl

end Desugar
